import Mathlib

/-!
Verification of the price-window resolution and API-response parsing logic of
the homebridge-epex plugin (src/platform.ts), as a shallow embedding.

Modelling conventions:
* Instants (JavaScript `Date` values) are milliseconds since the Unix epoch,
  as `Int`.  An invalid date (`getTime()` is `NaN`) is `none : Option Int`;
  JavaScript comparisons against `NaN` are all false, which the `timeLe` /
  `timeGt` helpers reproduce.
* JavaScript numbers are modelled as exact rationals (`ℚ`); `NaN` results of
  `parseFloat` / `parseInt` are `none`.
* The xml2js output (with `explicitArray: false`) encodes a single child
  element as a bare object and repeated children as an array; `OneOrMany`
  mirrors that, and `asList` mirrors `Array.isArray(x) ? x : [x]`.
* Logging is modelled by the list of warnings a parse emits; network and
  Homebridge plumbing are outside the modelled core.
* `Array.prototype.sort` with comparator `a.start.getTime() - b.start.getTime()`
  is a stable sort by start instant; it is modelled by `List.insertionSort`,
  which is stable, so it computes the same list.
-/

/-- Either a bare object or an array, as produced by xml2js with
`explicitArray: false`. -/
inductive OneOrMany (α : Type) where
  | one : α → OneOrMany α
  | many : List α → OneOrMany α
deriving DecidableEq

/-- Models `Array.isArray(x) ? x : [x]`. -/
def asList {α : Type} : OneOrMany α → List α
  | .one a => [a]
  | .many l => l

/-- Models the JavaScript defaulting idiom `s || d` on an optional string
field: a missing value and the empty string are falsy. -/
def jsOrStr (o : Option String) (d : String) : String :=
  match o with
  | some s => if s = "" then d else s
  | none => d

/-- Models the JavaScript defaulting idiom `q || d` on an optional numeric
config field: a missing value and `0` are falsy. -/
def jsOrQ (o : Option ℚ) (d : ℚ) : ℚ :=
  match o with
  | some v => if v = 0 then d else v
  | none => d

/-- Value of a decimal digit character, `none` on a non-digit. -/
def digitVal (c : Char) : Option Nat :=
  if c.isDigit then some (c.toNat - 48) else none

/-- Longest prefix of decimal digits, with the remaining characters. -/
def takeDigits : List Char → List Nat × List Char
  | [] => ([], [])
  | c :: cs =>
    match digitVal c with
    | some d =>
      let r := takeDigits cs
      (d :: r.1, r.2)
    | none => ([], c :: cs)

/-- Numeric value of a list of decimal digits (most significant first). -/
def natOfDigits (ds : List Nat) : Nat :=
  ds.foldl (fun a d => a * 10 + d) 0

/-- Strips an optional leading sign, returning the sign and the rest. -/
def splitSign : List Char → Int × List Char
  | '-' :: cs => (-1, cs)
  | '+' :: cs => (1, cs)
  | cs => (1, cs)

/-- Model of JavaScript `parseInt(s, 10)` restricted to an optional sign
followed by decimal digits (the shapes the parser meets); `none` models a
`NaN` result (no leading digits). Prefix semantics: trailing garbage after
the digits is ignored. -/
def jsParseInt (s : String) : Option Int :=
  let p := splitSign s.data
  let d := takeDigits p.2
  if d.1.isEmpty then none else some (p.1 * natOfDigits d.1)

/-- Model of JavaScript `parseFloat(s)` restricted to an optional sign,
integer digits, and an optional fractional part (the shapes the parser
meets); `none` models a `NaN` result. Prefix semantics: parsing stops at the
first character that fits neither part. -/
def jsParseFloat (s : String) : Option ℚ :=
  let p := splitSign s.data
  let d := takeDigits p.2
  match d.2 with
  | '.' :: cs =>
    let f := takeDigits cs
    if d.1.isEmpty && f.1.isEmpty then none
    else some ((p.1 : ℚ) * ((natOfDigits d.1 : ℚ) + (natOfDigits f.1 : ℚ) / (10 : ℚ) ^ f.1.length))
  | _ => if d.1.isEmpty then none else some ((p.1 : ℚ) * (natOfDigits d.1 : ℚ))

/-- One `Point` element of the ENTSO-E document: a 1-based position index and
a price amount, both string-encoded and possibly missing. -/
structure Point where
  position : Option String
  priceAmount : Option String
deriving DecidableEq

/-- One parsed time slot, `{ start: Date; price: number }` from platform.ts.
`start = none` models an invalid `Date` (a `NaN` offset propagated into the
`Date` constructor). -/
structure TimeSlot where
  start : Option Int
  price : ℚ
deriving DecidableEq

/-- One `Period` element: an optional `timeInterval.start` instant (already
resolved to the instant the string denotes; `none` when missing), an optional
`resolution` code, and one-or-many points. -/
structure Period where
  timeIntervalStart : Option Int
  resolution : Option String
  Point : OneOrMany Point
deriving DecidableEq

/-- One `TimeSeries` element: one-or-many periods. -/
structure TimeSeries where
  Period : OneOrMany Period
deriving DecidableEq

/-- The `Publication_MarketDocument` tree, reduced to the fields the parser
reads: the optional `TimeSeries` container. -/
structure PublicationMarketDocument where
  TimeSeries : Option (OneOrMany TimeSeries)
deriving DecidableEq

/-- Warnings the parser logs. -/
inductive Warn where
  | noTimeSeries
  | periodMissingStart
deriving DecidableEq

/-- Per-point duration in minutes from the resolution code, platform.ts line
207-208: `resolution === 'PT15M' ? 15 : 60` after defaulting a falsy field to
`'PT60M'`. -/
def minutesPerSlot (res : Option String) : Int :=
  if jsOrStr res "PT60M" = "PT15M" then 15 else 60

/-- Per-point parsing, platform.ts lines 216-227: the position is defaulted
through `p.position || '1'` then `parseInt(...) - 1`; the price through
`parseFloat(p['price.amount'] || '0')` with an `isNaN` guard; the slot start
is `dtStart + rawPos * minutesPerSlot * 60000`, invalid when the position was
`NaN`. -/
def parsePoint (dtStart : Int) (mins : Int) (p : Point) : TimeSlot :=
  let rawPos : Option Int := (jsParseInt (jsOrStr p.position "1")).map (fun n => n - 1)
  let rawPrice : Option ℚ := jsParseFloat (jsOrStr p.priceAmount "0")
  let price : ℚ := match rawPrice with | some v => v | none => 0
  { start := rawPos.map (fun r => dtStart + r * mins * 60000), price := price }

/-- Per-period parsing, platform.ts lines 198-229: a period without
`timeInterval.start` is skipped with a warning; otherwise every point (bare
or array) is parsed against the period start and resolution. -/
def parsePeriod (per : Period) : List TimeSlot × List Warn :=
  match per.timeIntervalStart with
  | none => ([], [.periodMissingStart])
  | some dtStart =>
    ((asList per.Point).map (parsePoint dtStart (minutesPerSlot per.resolution)), [])

/-- Folds `parsePeriod` over a period list, concatenating slots and warnings
in encounter order. -/
def parsePeriods : List Period → List TimeSlot × List Warn
  | [] => ([], [])
  | per :: rest =>
    let h := parsePeriod per
    let t := parsePeriods rest
    (h.1 ++ t.1, h.2 ++ t.2)

/-- Per-series parsing: the period field is normalized to a list. -/
def parseSeries (s : TimeSeries) : List TimeSlot × List Warn :=
  parsePeriods (asList s.Period)

/-- Folds `parseSeries` over a series list, concatenating in encounter
order. -/
def parseSeriesList : List TimeSeries → List TimeSlot × List Warn
  | [] => ([], [])
  | s :: rest =>
    let h := parseSeries s
    let t := parseSeriesList rest
    (h.1 ++ t.1, h.2 ++ t.2)

/-- Comparator key order used by the sort at platform.ts line 233
(`a.start.getTime() - b.start.getTime()`). On two valid starts it is the
instant order. A `NaN` key makes the JavaScript sort order
implementation-defined; the model arbitrarily puts `none` first, and no
theorem relies on that case. -/
def startLe (a b : Option Int) : Bool :=
  match a, b with
  | some x, some y => decide (x ≤ y)
  | none, _ => true
  | some _, none => false

/-- Strict version of `startLe`, false whenever either side is invalid. -/
def startLt (a b : Option Int) : Bool :=
  match a, b with
  | some x, some y => decide (x < y)
  | _, _ => false

/-- Slot order by start key. -/
def slotLe (a b : TimeSlot) : Prop := startLe a.start b.start = true

instance : DecidableRel slotLe :=
  fun a b => inferInstanceAs (Decidable (_ = true))

/-- Strict slot order by start key, used to state the strictly-increasing
hypothesis of the data model. -/
def startLtRel (a b : TimeSlot) : Prop := startLt a.start b.start = true

instance : DecidableRel startLtRel :=
  fun a b => inferInstanceAs (Decidable (_ = true))

/-- The data-model invariant on a slot sequence: starts strictly increasing
(hence valid). -/
def StrictIncStarts (l : List TimeSlot) : Prop := List.Pairwise startLtRel l

instance (l : List TimeSlot) : Decidable (StrictIncStarts l) :=
  inferInstanceAs (Decidable (List.Pairwise startLtRel l))

/-- The stable sort at platform.ts line 233. -/
def sortSlots (l : List TimeSlot) : List TimeSlot := List.insertionSort slotLe l

/-- Slots and warnings accumulated by `parseAllTimeslots` before the final
sort, platform.ts lines 179-230. -/
def parseAllTimeslotsRaw (doc : PublicationMarketDocument) : List TimeSlot × List Warn :=
  match doc.TimeSeries with
  | none => ([], [.noTimeSeries])
  | some ts => parseSeriesList (asList ts)

/-- Full parse, platform.ts lines 177-247: flatten all series, periods and
points, then sort ascending by start. -/
def parseAllTimeslots (doc : PublicationMarketDocument) : List TimeSlot × List Warn :=
  let r := parseAllTimeslotsRaw doc
  (sortSlots r.1, r.2)

/-- Models `slot.start.getTime() <= now`; false when the start is invalid
(`NaN` comparisons are false in JavaScript). -/
def timeLe (t : Option Int) (x : Int) : Bool :=
  match t with
  | some v => decide (v ≤ x)
  | none => false

/-- Models `slot.start.getTime() > now`; false when the start is invalid. -/
def timeGt (t : Option Int) (x : Int) : Bool :=
  match t with
  | some v => decide (x < v)
  | none => false

/-- The current-slot selection loop of pollEPEXPrice, platform.ts lines
110-125: walk the slots; with no next slot the current one is selected;
otherwise the slot is selected when `slot.start <= now < nextSlot.start`.
Returns `none` exactly on the empty list (the `currentSlot = null` case). -/
def findSlot (now : Int) : List TimeSlot → Option TimeSlot
  | [] => none
  | [s] => some s
  | s :: t :: rest =>
    if timeLe s.start now && timeGt t.start now then some s
    else findSlot now (t :: rest)

/-- The plugin configuration fields the modelled core reads. -/
structure Config where
  apiKey : Option String
  max_price : Option ℚ
  max_rate : Option ℚ
deriving DecidableEq

/-- Model of `String.prototype.trim`: drop leading and trailing
whitespace. -/
def jsTrim (s : String) : String :=
  String.mk (((s.data.dropWhile Char.isWhitespace).reverse.dropWhile Char.isWhitespace).reverse)

/-- Models the credential check at platform.ts line 77:
`!this.config.apiKey || this.config.apiKey.trim() === ''`. -/
def missingApiKey (cfg : Config) : Bool :=
  match cfg.apiKey with
  | none => true
  | some s => decide (jsTrim s = "")

/-- The resolved current slot, platform.ts lines 110-130: the loop result,
or on an empty sequence the fallback slot
`{ start: new Date(), price: this.config.max_rate || 100 }` (the `new Date()`
is modelled as `now`). -/
def resolveCurrentSlot (slots : List TimeSlot) (now : Int) (cfg : Config) : TimeSlot :=
  match findSlot now slots with
  | some s => s
  | none => { start := some now, price := jsOrQ cfg.max_rate 100 }

/-- The price published by one poll cycle, platform.ts lines 75-137: with a
missing credential, `this.config.max_price || 100` is published directly
(line 79); otherwise the resolved slot price divided by 10 (line 135). The
fetch and parse are outside the model; `slots` is the parse result. -/
def pollEPEXPrice (cfg : Config) (slots : List TimeSlot) (now : Int) : ℚ :=
  if missingApiKey cfg then jsOrQ cfg.max_price 100
  else (resolveCurrentSlot slots now cfg).price / 10

/-- The request window, platform.ts lines 145-158: today's UTC midnight
(obtained in the source by decomposing `now` into its UTC calendar day and
recomposing with `Date.UTC(y, m, d, 0, 0, 0)`, which is exactly the floor of
`now` to the 86,400,000 ms day boundary) and that midnight plus 48 hours.
The rendering of the two boundary instants into the `YYYYMMDDHHmm` wire
string (`toEntsoeDateString`) is not modelled; the model returns the
instants. -/
def getEntsoeWindowFor48h (now : Int) : Int × Int :=
  let todayMidnight := now - now % 86400000
  (todayMidnight, todayMidnight + 48 * 60 * 60 * 1000)

/-! ### Helper lemmas about the time comparisons and the selection loop -/

theorem timeLe_of_startLt_of_timeLe {a b : Option Int} {now : Int}
    (h1 : startLt a b = true) (h2 : timeLe b now = true) : timeLe a now = true := by
  cases a <;> cases b <;> simp [startLt, timeLe] at * <;> omega

theorem timeGt_eq_false_of_timeLe {a : Option Int} {now : Int}
    (h : timeLe a now = true) : timeGt a now = false := by
  cases a <;> simp [timeLe, timeGt] at * <;> omega

theorem timeLe_eq_false_of_timeGt {a : Option Int} {now : Int}
    (h : timeGt a now = true) : timeLe a now = false := by
  cases a <;> simp [timeLe, timeGt] at * <;> omega

theorem timeGt_of_startLt_of_timeGt {a b : Option Int} {now : Int}
    (h1 : startLt a b = true) (h2 : timeGt a now = true) : timeGt b now = true := by
  cases a <;> cases b <;> simp [startLt, timeGt] at * <;> omega

theorem findSlot_cons_cons_skip {s t : TimeSlot} {rest : List TimeSlot} {now : Int}
    (h : (timeLe s.start now && timeGt t.start now) = false) :
    findSlot now (s :: t :: rest) = findSlot now (t :: rest) := by
  simp [findSlot, h]

theorem findSlot_cons_cons_match {s t : TimeSlot} {rest : List TimeSlot} {now : Int}
    (h1 : timeLe s.start now = true) (h2 : timeGt t.start now = true) :
    findSlot now (s :: t :: rest) = some s := by
  simp [findSlot, h1, h2]

theorem findSlot_middle (now : Int) :
    ∀ (pre post : List TimeSlot) (a b : TimeSlot),
      StrictIncStarts (pre ++ a :: b :: post) →
      timeLe a.start now = true → timeGt b.start now = true →
      findSlot now (pre ++ a :: b :: post) = some a := by
  intro pre
  induction pre with
  | nil =>
    intro post a b _ h1 h2
    simpa using @findSlot_cons_cons_match a b post now h1 h2
  | cons s pre2 ih =>
    intro post a b hp h1 h2
    have hp2 : StrictIncStarts (pre2 ++ a :: b :: post) :=
      (List.pairwise_cons.mp hp).2
    have hrel : ∀ v ∈ pre2 ++ a :: b :: post, startLtRel s v :=
      (List.pairwise_cons.mp hp).1
    cases pre2 with
    | nil =>
      have hGt : timeGt a.start now = false := timeGt_eq_false_of_timeLe h1
      rw [List.cons_append, List.nil_append] at *
      rw [findSlot_cons_cons_skip (by simp [hGt])]
      exact ih post a b hp2 h1 h2
    | cons u pre3 =>
      simp only [List.cons_append] at hp2 ih ⊢
      have hua : startLtRel u a := (List.pairwise_cons.mp hp2).1 a (by simp)
      have hle : timeLe u.start now = true := timeLe_of_startLt_of_timeLe hua h1
      have hGt : timeGt u.start now = false := timeGt_eq_false_of_timeLe hle
      rw [findSlot_cons_cons_skip (by simp [hGt])]
      exact ih post a b hp2 h1 h2

theorem findSlot_last (now : Int) :
    ∀ (pre : List TimeSlot) (a : TimeSlot),
      StrictIncStarts (pre ++ [a]) →
      timeLe a.start now = true →
      findSlot now (pre ++ [a]) = some a := by
  intro pre
  induction pre with
  | nil =>
    intro a _ _
    simp [findSlot]
  | cons s pre2 ih =>
    intro a hp h1
    have hp2 : StrictIncStarts (pre2 ++ [a]) := (List.pairwise_cons.mp hp).2
    cases pre2 with
    | nil =>
      have hGt : timeGt a.start now = false := timeGt_eq_false_of_timeLe h1
      rw [List.cons_append, List.nil_append] at *
      rw [findSlot_cons_cons_skip (by simp [hGt])]
      exact ih a hp2 h1
    | cons u pre3 =>
      simp only [List.cons_append] at hp2 ih ⊢
      have hua : startLtRel u a := (List.pairwise_cons.mp hp2).1 a (by simp)
      have hle : timeLe u.start now = true := timeLe_of_startLt_of_timeLe hua h1
      have hGt : timeGt u.start now = false := timeGt_eq_false_of_timeLe hle
      rw [findSlot_cons_cons_skip (by simp [hGt])]
      exact ih a hp2 h1

/-! ### Claim theorems for the current-slot selection loop -/

/-- C1: for a slot sequence with strictly increasing starts (the data-model
invariant), the current-slot loop of pollEPEXPrice selects the slot `a` with
`a.start <= now < b.start` where `b` is the next slot, and selects the last
slot when `now` is at or after its start. The position of the selected slot
is expressed by the list decomposition `pre ++ a :: b :: post`
(respectively `pre ++ [a]`). -/
theorem current_slot_selection (now : Int) :
    (∀ (pre post : List TimeSlot) (a b : TimeSlot),
      StrictIncStarts (pre ++ a :: b :: post) →
      timeLe a.start now = true → timeGt b.start now = true →
      findSlot now (pre ++ a :: b :: post) = some a)
    ∧ (∀ (pre : List TimeSlot) (a : TimeSlot),
      StrictIncStarts (pre ++ [a]) →
      timeLe a.start now = true →
      findSlot now (pre ++ [a]) = some a) :=
  ⟨findSlot_middle now, findSlot_last now⟩

/-- Witness for C1: three strictly increasing slots, `now` inside the second
interval selects the second slot. -/
theorem current_slot_selection_witness :
    findSlot 150 ([⟨some 0, 1⟩] ++ ⟨some 100, 2⟩ :: ⟨some 200, 3⟩ :: []) =
      some ⟨some 100, 2⟩ :=
  (current_slot_selection 150).1 [⟨some 0, 1⟩] [] ⟨some 100, 2⟩ ⟨some 200, 3⟩
    (by decide) (by decide) (by decide)

/-- C10: when `now` is strictly before the first slot's start, the loop's
interval test never matches and the no-next-slot branch selects the final
slot, not the first (the sequence satisfies the data-model invariant of
strictly increasing starts). -/
theorem now_before_first_selects_last (now : Int) :
    ∀ (a : TimeSlot) (rest : List TimeSlot),
      StrictIncStarts (a :: rest) →
      timeGt a.start now = true →
      findSlot now (a :: rest) = some ((a :: rest).getLast (List.cons_ne_nil a rest)) := by
  intro a rest
  induction rest generalizing a with
  | nil =>
    intro _ _
    simp [findSlot]
  | cons b rest2 ih =>
    intro hp hgt
    have hab : startLtRel a b := (List.pairwise_cons.mp hp).1 b (by simp)
    have hgtb : timeGt b.start now = true := timeGt_of_startLt_of_timeGt hab hgt
    have hle : timeLe a.start now = false := timeLe_eq_false_of_timeGt hgt
    rw [findSlot_cons_cons_skip (by simp [hle])]
    rw [ih b (List.pairwise_cons.mp hp).2 hgtb]
    simp [List.getLast_cons]

/-- Witness for C10: `now = 50` before both slots selects the last slot
`(200, 2)`, not the first. -/
theorem now_before_first_selects_last_witness :
    findSlot 50 [⟨some 100, 1⟩, ⟨some 200, 2⟩] = some ⟨some 200, 2⟩ :=
  now_before_first_selects_last 50 ⟨some 100, 1⟩ [⟨some 200, 2⟩] (by decide) (by decide)

/-! ### Sort order instances and stability of the slot sort -/

instance : IsTotal TimeSlot slotLe :=
  ⟨by
    intro a b
    cases ha : a.start <;> cases hb : b.start <;>
      simp [slotLe, startLe, ha, hb] <;> omega⟩

instance : IsTrans TimeSlot slotLe :=
  ⟨by
    intro a b c hab hbc
    cases ha : a.start <;> cases hb : b.start <;> cases hc : c.start <;>
      simp [slotLe, startLe, ha, hb, hc] at * <;> omega⟩

theorem slotLe_of_same_key {k : Int} {a b : TimeSlot}
    (ha : a.start = some k) (hb : b.start = some k) : slotLe a b := by
  simp [slotLe, startLe, ha, hb]

theorem filter_key_orderedInsert (k : Int) (a : TimeSlot) (l : List TimeSlot) :
    (List.orderedInsert slotLe a l).filter (fun s => decide (s.start = some k))
      = if a.start = some k
        then a :: l.filter (fun s => decide (s.start = some k))
        else l.filter (fun s => decide (s.start = some k)) := by
  induction l with
  | nil =>
    by_cases hpa : a.start = some k <;> simp [List.orderedInsert, hpa]
  | cons b bs ih =>
    by_cases hab : slotLe a b
    · by_cases hpa : a.start = some k <;>
        simp [List.orderedInsert, hab, hpa, List.filter]
    · by_cases hpa : a.start = some k
      · by_cases hpb : b.start = some k
        · exact absurd (slotLe_of_same_key hpa hpb) hab
        · simp [List.orderedInsert, hab, hpa, hpb, List.filter, ih]
      · by_cases hpb : b.start = some k <;>
          simp [List.orderedInsert, hab, hpa, hpb, List.filter, ih]

theorem filter_key_sortSlots (k : Int) (l : List TimeSlot) :
    (sortSlots l).filter (fun s => decide (s.start = some k))
      = l.filter (fun s => decide (s.start = some k)) := by
  induction l with
  | nil => rfl
  | cons x l2 ih =>
    by_cases hpx : x.start = some k <;>
      simp [sortSlots, List.insertionSort, filter_key_orderedInsert,
        hpx, List.filter, ih.symm]

/-- C9: for every document (whose parsed slots all carry valid start
instants), the parser output is sorted non-decreasing by start instant, the
sort is stable (slots with equal start keep their encounter order: filtering
either list to one start key yields the same list), and nothing is
deduplicated (the output is a permutation of the flattened input). -/
theorem parsed_sequence_sorted_stable (doc : PublicationMarketDocument)
    (h : ∀ s ∈ (parseAllTimeslotsRaw doc).1, s.start.isSome = true) :
    List.Pairwise (fun a b => ∃ x y, a.start = some x ∧ b.start = some y ∧ x ≤ y)
        (parseAllTimeslots doc).1
    ∧ (∀ k : Int,
        (parseAllTimeslots doc).1.filter (fun s => decide (s.start = some k))
          = (parseAllTimeslotsRaw doc).1.filter (fun s => decide (s.start = some k)))
    ∧ (parseAllTimeslots doc).1.Perm (parseAllTimeslotsRaw doc).1 := by
  have hperm : (parseAllTimeslots doc).1.Perm (parseAllTimeslotsRaw doc).1 :=
    List.perm_insertionSort slotLe (parseAllTimeslotsRaw doc).1
  have hsorted : List.Sorted slotLe (parseAllTimeslots doc).1 :=
    List.sorted_insertionSort slotLe (parseAllTimeslotsRaw doc).1
  refine ⟨?_, ?_, hperm⟩
  · refine List.Pairwise.imp_of_mem ?_ hsorted
    intro a b hma hmb hab
    have ha := h a (hperm.mem_iff.mp hma)
    have hb := h b (hperm.mem_iff.mp hmb)
    cases hsa : a.start with
    | none => rw [hsa] at ha; simp at ha
    | some x =>
      cases hsb : b.start with
      | none => rw [hsb] at hb; simp at hb
      | some y =>
        refine ⟨x, y, rfl, rfl, ?_⟩
        simpa [slotLe, startLe, hsa, hsb] using hab
  · intro k
    exact filter_key_sortSlots k (parseAllTimeslotsRaw doc).1

/-- Fixture for the C9 witness: two series with the same period start, so the
flattened sequence has two slots with equal start instants in encounter
order. -/
def docTwoSeries : PublicationMarketDocument :=
  ⟨some (.many
    [⟨.one ⟨some 0, none, .one ⟨some "1", some "1"⟩⟩⟩,
     ⟨.one ⟨some 0, none, .one ⟨some "1", some "2"⟩⟩⟩])⟩

/-- Witness for C9: on the two-series fixture the stability equation holds at
the shared start key. -/
theorem parsed_sequence_sorted_stable_witness :
    (parseAllTimeslots docTwoSeries).1.filter (fun s => decide (s.start = some 0))
      = (parseAllTimeslotsRaw docTwoSeries).1.filter (fun s => decide (s.start = some 0)) :=
  (parsed_sequence_sorted_stable docTwoSeries (by decide)).2.1 0

/-! ### Parser flattening lemmas -/

theorem parsePeriods_append (xs ys : List Period) :
    parsePeriods (xs ++ ys)
      = ((parsePeriods xs).1 ++ (parsePeriods ys).1,
         (parsePeriods xs).2 ++ (parsePeriods ys).2) := by
  induction xs with
  | nil => simp [parsePeriods]
  | cons p xs ih => simp [parsePeriods, ih]

theorem parseSeriesList_append (xs ys : List TimeSeries) :
    parseSeriesList (xs ++ ys)
      = ((parseSeriesList xs).1 ++ (parseSeriesList ys).1,
         (parseSeriesList xs).2 ++ (parseSeriesList ys).2) := by
  induction xs with
  | nil => simp [parseSeriesList]
  | cons s xs ih => simp [parseSeriesList, ih]

/-- C5: at each of the three nesting levels (series, periods, points),
parsing a single bare (non-list) element yields exactly the same result as
parsing the equivalent one-element-list encoding, in any document context. -/
theorem bare_object_equals_singleton_list :
    (∀ ts : TimeSeries,
      parseAllTimeslots ⟨some (.one ts)⟩ = parseAllTimeslots ⟨some (.many [ts])⟩)
    ∧ (∀ (pre post : List TimeSeries) (per : Period),
      parseAllTimeslots ⟨some (.many (pre ++ ⟨.one per⟩ :: post))⟩
        = parseAllTimeslots ⟨some (.many (pre ++ ⟨.many [per]⟩ :: post))⟩)
    ∧ (∀ (pre post : List TimeSeries) (spre spost : List Period)
        (tis : Option Int) (res : Option String) (pt : Point),
      parseAllTimeslots
          ⟨some (.many (pre ++ ⟨.many (spre ++ ⟨tis, res, .one pt⟩ :: spost)⟩ :: post))⟩
        = parseAllTimeslots
          ⟨some (.many (pre ++ ⟨.many (spre ++ ⟨tis, res, .many [pt]⟩ :: spost)⟩ :: post))⟩) := by
  refine ⟨fun ts => rfl, ?_, ?_⟩
  · intro pre post per
    have h : parseSeries ⟨.one per⟩ = parseSeries ⟨.many [per]⟩ := rfl
    simp [parseAllTimeslots, parseAllTimeslotsRaw, asList,
      parseSeriesList_append, parseSeriesList, h]
  · intro pre post spre spost tis res pt
    have h : parsePeriod ⟨tis, res, .one pt⟩ = parsePeriod ⟨tis, res, .many [pt]⟩ := by
      cases tis <;> rfl
    simp [parseAllTimeslots, parseAllTimeslotsRaw, asList,
      parseSeriesList_append, parseSeriesList, parseSeries,
      parsePeriods_append, parsePeriods, h]

/-- C8: a document without the expected top-level `TimeSeries` container
parses to the empty slot sequence with a warning (the parse is a total
function, so it cannot raise); a period lacking its `timeInterval.start` is
skipped with a diagnostic while every other period still contributes its
slots. -/
theorem missing_series_and_missing_period_start :
    parseAllTimeslots ⟨none⟩ = ([], [Warn.noTimeSeries])
    ∧ (∀ (pre post : List Period) (res : Option String) (pts : OneOrMany Point),
      (parseAllTimeslots ⟨some (.one ⟨.many (pre ++ ⟨none, res, pts⟩ :: post)⟩)⟩).1
        = (parseAllTimeslots ⟨some (.one ⟨.many (pre ++ post)⟩)⟩).1
      ∧ Warn.periodMissingStart
          ∈ (parseAllTimeslots ⟨some (.one ⟨.many (pre ++ ⟨none, res, pts⟩ :: post)⟩)⟩).2) := by
  refine ⟨rfl, ?_⟩
  intro pre post res pts
  constructor
  · simp [parseAllTimeslots, parseAllTimeslotsRaw, asList, parseSeriesList,
      parseSeries, parsePeriods_append, parsePeriods, parsePeriod]
  · simp [parseAllTimeslots, parseAllTimeslotsRaw, asList, parseSeriesList,
      parseSeries, parsePeriods_append, parsePeriods, parsePeriod]

/-! ### Request window -/

/-- C6: for every instant, the request window starts at the UTC midnight of
that instant's calendar day — characterized as the unique instant that is a
multiple of 86,400,000 ms, is not after `now`, and is less than one day
before `now` (so truncation, never rounding up, and fractional parts are
dropped) — and ends exactly 48 hours later. -/
theorem window_is_midnight_plus_48h (now : Int) :
    (getEntsoeWindowFor48h now).1 % 86400000 = 0
    ∧ (getEntsoeWindowFor48h now).1 ≤ now
    ∧ now - (getEntsoeWindowFor48h now).1 < 86400000
    ∧ (getEntsoeWindowFor48h now).2 = (getEntsoeWindowFor48h now).1 + 48 * 60 * 60 * 1000 := by
  refine ⟨?_, ?_, ?_, rfl⟩ <;> simp only [getEntsoeWindowFor48h] <;> omega

/-! ### Resolution codes and slot offsets -/

/-- C7: the per-point duration is 15 minutes exactly for the `PT15M` code and
60 minutes for every other or missing code; each point's slot start is
`periodStart + (position - 1) * duration` (in ms); and the concrete
15-minute period starting 2025-01-06T00:00:00Z (= 1736121600000 ms) with
points 1..4 and prices 10, 20, 30, 40 yields slots at 00:00, 00:15, 00:30,
00:45 with those prices. -/
theorem resolution_and_slot_offsets :
    minutesPerSlot (some "PT15M") = 15
    ∧ (∀ res : Option String, res ≠ some "PT15M" → minutesPerSlot res = 60)
    ∧ (∀ (d m : Int) (pt : Point) (k : Int),
        jsParseInt (jsOrStr pt.position "1") = some k →
        (parsePoint d m pt).start = some (d + (k - 1) * m * 60000))
    ∧ parsePeriod ⟨some 1736121600000, some "PT15M",
        .many [⟨some "1", some "10"⟩, ⟨some "2", some "20"⟩,
               ⟨some "3", some "30"⟩, ⟨some "4", some "40"⟩]⟩
      = ([⟨some 1736121600000, 10⟩, ⟨some 1736122500000, 20⟩,
          ⟨some 1736123400000, 30⟩, ⟨some 1736124300000, 40⟩], []) := by
  refine ⟨rfl, ?_, ?_, ?_⟩
  · intro res hres
    cases res with
    | none => rfl
    | some s =>
      have hs : s ≠ "PT15M" := fun h => hres (by rw [h])
      by_cases he : s = ""
      · simp [minutesPerSlot, jsOrStr, he]
      · simp [minutesPerSlot, jsOrStr, he, hs]
  · intro d m pt k hk
    simp [parsePoint, hk]
  · simp +decide [parsePeriod, parsePoint, minutesPerSlot, asList, jsOrStr,
      jsParseInt, jsParseFloat, splitSign, takeDigits, digitVal, natOfDigits]

/-- Witness for C7: an unrecognized resolution code maps to 60 minutes, and a
point at parsed position 2 with 60-minute slots starts one hour after the
period start. -/
theorem resolution_and_slot_offsets_witness :
    minutesPerSlot (some "PT30M") = 60
    ∧ (parsePoint 0 60 ⟨some "2", some "5"⟩).start = some (0 + (2 - 1) * 60 * 60000) :=
  ⟨resolution_and_slot_offsets.2.1 (some "PT30M") (by decide),
   resolution_and_slot_offsets.2.2.1 0 60 ⟨some "2", some "5"⟩ 2 (by decide)⟩

/-! ### Point-level defaults (price and position) -/

/-- C4 counterexample: an unparseable (non-empty) position does NOT default
to position 1. `parseInt('abc') - 1` is `NaN`, which propagates into the
slot start (an invalid Date, `none` in the model); defaulting to position 1
would have produced `some 0` (the period start). -/
theorem position_default_counterexample :
    (parsePoint 0 60 ⟨some "abc", some "10"⟩).start = none
    ∧ (parsePoint 0 60 ⟨none, some "10"⟩).start = some 0
    ∧ (none : Option Int) ≠ some 0 := by
  refine ⟨by decide, by decide, by decide⟩

/-- C4 amended: an unparseable or missing price amount resolves to price 0
(never an error, and `NaN` is mapped to 0 by the `isNaN` guard), and a
missing or empty-string position defaults to position 1 (offset 0); an
unparseable non-empty position, however, is not defaulted — its `NaN` offset
propagates into an invalid slot start. -/
theorem point_level_defaults :
    (∀ (d m : Int) (pr : Option String), (parsePoint d m ⟨none, pr⟩).start = some d)
    ∧ (∀ (d m : Int) (pr : Option String), (parsePoint d m ⟨some "", pr⟩).start = some d)
    ∧ (∀ (d m : Int) (pos s : Option String),
        jsParseFloat (jsOrStr s "0") = none → (parsePoint d m ⟨pos, s⟩).price = 0)
    ∧ (∀ (d m : Int) (pos s : Option String) (v : ℚ),
        jsParseFloat (jsOrStr s "0") = some v → (parsePoint d m ⟨pos, s⟩).price = v)
    ∧ (∀ (d m : Int) (pos : Option String),
        jsParseInt (jsOrStr pos "1") = none → (parsePoint d m ⟨pos, some "7"⟩).start = none) := by
  refine ⟨?_, ?_, ?_, ?_, ?_⟩
  · intro d m pr
    simp +decide [parsePoint, jsOrStr, jsParseInt, splitSign, takeDigits, digitVal, natOfDigits]
  · intro d m pr
    simp +decide [parsePoint, jsOrStr, jsParseInt, splitSign, takeDigits, digitVal, natOfDigits]
  · intro d m pos s h
    simp [parsePoint, h]
  · intro d m pos s v h
    simp [parsePoint, h]
  · intro d m pos h
    simp [parsePoint, h]

/-- Witness for the amended C4: the literal price 'abc' resolves to 0, a
missing position yields the period start, and the unparseable position 'abc'
yields an invalid start. -/
theorem point_level_defaults_witness :
    (parsePoint 5 60 ⟨some "1", some "abc"⟩).price = 0
    ∧ (parsePoint 5 60 ⟨none, some "3"⟩).start = some 5
    ∧ (parsePoint 5 60 ⟨some "abc", some "7"⟩).start = none :=
  ⟨point_level_defaults.2.2.1 5 60 (some "1") (some "abc") (by decide),
   point_level_defaults.1 5 60 (some "3"),
   point_level_defaults.2.2.2.2 5 60 (some "abc") (by decide)⟩

/-! ### Fallback paths and the published price -/

/-- C2 counterexample: the empty-sequence fallback and the
missing-credential fallback do NOT publish the same value. With default
configuration (no `max_price`, no `max_rate`), a missing API key publishes
100 while an empty slot sequence publishes 100/10 = 10. -/
theorem fallback_unification_counterexample :
    pollEPEXPrice ⟨none, none, none⟩ [] 0 = 100
    ∧ pollEPEXPrice ⟨some "apikey", none, none⟩ [] 0 = 10
    ∧ (100 : ℚ) ≠ 10 := by
  refine ⟨?_, ?_, by norm_num⟩
  · have h : missingApiKey ⟨none, none, none⟩ = true := by decide
    simp [pollEPEXPrice, h, jsOrQ]
  · have h : missingApiKey ⟨some "apikey", none, none⟩ = false := by decide
    simp [pollEPEXPrice, h, resolveCurrentSlot, findSlot, jsOrQ]
    norm_num

/-- C2 amended: on an empty slot sequence the resolved fallback slot's price
equals the configured `max_rate` fallback (default 100) and the published
value is that price divided by 10; the missing-credential path instead
publishes the `max_price` fallback (default 100) without division. The two
failure causes therefore use distinct fallback fields and are not unified
into one published value. -/
theorem fallback_paths (cfg : Config) (slots : List TimeSlot) (now : Int) :
    (missingApiKey cfg = true → pollEPEXPrice cfg slots now = jsOrQ cfg.max_price 100)
    ∧ (resolveCurrentSlot [] now cfg).price = jsOrQ cfg.max_rate 100
    ∧ (missingApiKey cfg = false →
        pollEPEXPrice cfg [] now = jsOrQ cfg.max_rate 100 / 10) := by
  refine ⟨?_, rfl, ?_⟩
  · intro h
    simp [pollEPEXPrice, h]
  · intro h
    simp [pollEPEXPrice, h, resolveCurrentSlot, findSlot]

/-- Witness for the amended C2: both fallback paths evaluated on concrete
configurations. -/
theorem fallback_paths_witness :
    pollEPEXPrice ⟨none, some 42, some 7⟩ [] 0 = jsOrQ (some 42) 100
    ∧ pollEPEXPrice ⟨some "apikey", some 42, some 7⟩ [] 0 = jsOrQ (some 7) 100 / 10 :=
  ⟨(fallback_paths ⟨none, some 42, some 7⟩ [] 0).1 (by decide),
   (fallback_paths ⟨some "apikey", some 42, some 7⟩ [] 0).2.2 (by decide)⟩

/-- Fixture for the C3 end-to-end scenario: one series, one period,
resolution absent (defaulted to 60 minutes), period start
2025-01-06T00:00:00Z (= 1736121600000 ms), two points with prices 50.0 and
45.5. -/
def docDemo : PublicationMarketDocument :=
  ⟨some (.one ⟨.one ⟨some 1736121600000, none,
    .many [⟨some "1", some "50.0"⟩, ⟨some "2", some "45.5"⟩]⟩⟩)⟩

/-- C3: whenever the selection loop finds a slot, the published price is
that slot's price divided by exactly 10 (the constant is baked into
platform.ts line 135 and no configuration field enters the expression); and
in the end-to-end scenario (docDemo, now = 2025-01-06T01:30:00Z
= 1736127000000 ms) the second slot (01:00, price 45.5) is selected and the
published value is 4.55. -/
theorem published_price_division_by_ten :
    (∀ (cfg : Config) (slots : List TimeSlot) (now : Int) (s : TimeSlot),
      missingApiKey cfg = false → findSlot now slots = some s →
      pollEPEXPrice cfg slots now = s.price / 10)
    ∧ (parseAllTimeslots docDemo).1
        = [⟨some 1736121600000, 50⟩, ⟨some 1736125200000, 45.5⟩]
    ∧ findSlot 1736127000000 (parseAllTimeslots docDemo).1
        = some ⟨some 1736125200000, 45.5⟩
    ∧ pollEPEXPrice ⟨some "apikey", none, none⟩
        (parseAllTimeslots docDemo).1 1736127000000 = 4.55 := by
  have hparse : (parseAllTimeslots docDemo).1
      = [⟨some 1736121600000, 50⟩, ⟨some 1736125200000, 45.5⟩] := by
    simp +decide [parseAllTimeslots, parseAllTimeslotsRaw, docDemo, asList,
      parseSeriesList, parseSeries, parsePeriods, parsePeriod, parsePoint,
      minutesPerSlot, jsOrStr, jsParseInt, jsParseFloat, splitSign,
      takeDigits, digitVal, natOfDigits, sortSlots, List.insertionSort,
      List.orderedInsert, slotLe, startLe]
    norm_num
  have hfind : findSlot 1736127000000 (parseAllTimeslots docDemo).1
      = some ⟨some 1736125200000, 45.5⟩ := by
    rw [hparse]
    simp +decide [findSlot, timeLe, timeGt]
  refine ⟨?_, hparse, hfind, ?_⟩
  · intro cfg slots now s hk hf
    simp [pollEPEXPrice, hk, resolveCurrentSlot, hf]
  · have hk : missingApiKey ⟨some "apikey", none, none⟩ = false := by decide
    rw [pollEPEXPrice, hk]
    simp only [Bool.false_eq_true, if_false, resolveCurrentSlot, hfind]
    norm_num

/-- Witness for C3: the general divide-by-10 conjunct applied to a concrete
one-slot sequence. -/
theorem published_price_division_by_ten_witness :
    pollEPEXPrice ⟨some "apikey", none, none⟩ [⟨some 0, 30⟩] 5
      = (⟨some 0, (30 : ℚ)⟩ : TimeSlot).price / 10 :=
  published_price_division_by_ten.1 ⟨some "apikey", none, none⟩
    [⟨some 0, 30⟩] 5 ⟨some 0, 30⟩ (by decide) (by decide)
